import Mathlib

/-!
Verification of the bulk-courier verification engine (`app.py`).

The Python source is shallowly embedded: the normalizer
(`validate_phone_number`), the deduplication step and batch partitioning of
`upload_file`, the retry loop `check_courier_api_with_retry` (with its shared
statistics counters and result cache made explicit state), and the per-batch
result collection of `process_phone_batch_robust`.
-/

namespace BulkCourier

/-- `MAX_RETRIES = 3` from `app.py` line 39. -/
def MAX_RETRIES : Nat := 3

/-- `BATCH_SIZE = 30` from `app.py` line 36. -/
def BATCH_SIZE : Nat := 30

/-- `re.sub(r'\D', '', phone)`: keep only the digit characters of a string. -/
def digitsOf (s : String) : List Char := s.data.filter (fun c => c.isDigit)

/-- `validate_phone_number` (`app.py` lines 91-100): strip non-digits; accept
an 11-digit string starting `01` as-is; accept a 13-digit string starting
`880` after dropping its first two characters; otherwise return `None`. -/
def validate_phone_number (phone : String) : Option String :=
  let phone_clean := digitsOf phone
  if phone_clean.length = 11 ∧ phone_clean.take 2 = ['0', '1'] then
    some (String.mk phone_clean)
  else if phone_clean.length = 13 ∧ phone_clean.take 3 = ['8', '8', '0'] then
    some (String.mk (phone_clean.drop 2))
  else
    none

/-- The duplicate-removal loop of `upload_file` (`app.py` lines 1065-1070):
a `seen` set and an output list, appending each number not seen before. -/
def dedupGo (seen : List String) : List String → List String
  | [] => []
  | x :: xs => if x ∈ seen then dedupGo seen xs else x :: dedupGo (x :: seen) xs

/-- Order-preserving duplicate removal, starting from an empty `seen` set. -/
def dedup (l : List String) : List String := dedupGo [] l

/-- `duplicates_removed = len(valid_numbers) - len(unique_numbers)`
(`app.py` line 1072). -/
def duplicates_removed (valid_numbers : List String) : Nat :=
  valid_numbers.length - (dedup valid_numbers).length

/-- The `seen` set accumulated by `dedupGo` after consuming a list. -/
def seenAcc (seen : List String) : List String → List String
  | [] => seen
  | x :: xs => seenAcc (if x ∈ seen then seen else x :: seen) xs

/-- The `processing_stats` dictionary (`app.py` lines 46-51). -/
structure Stats where
  total : Nat
  success : Nat
  failed : Nat
  retries : Nat
deriving Repr, DecidableEq

/-- The outcome a lookup returns and caches: the `(data, error)` pair of
`check_courier_api_with_retry` — `(response.json(), None)` on success,
`(None, last_error)` on terminal failure. -/
def Outcome (α : Type) : Type := Option α × Option String

/-- The shared mutable state of one run: `phone_cache` (newest binding
first, as `phone_cache[phone] = result` overrides), `processing_stats`, and
an instrumentation counter `calls` counting invocations of the single
`session.post` site (one per attempt-loop iteration). -/
structure RunState (α : Type) where
  phone_cache : List (String × Outcome α)
  stats : Stats
  calls : Nat

/-- Dictionary lookup `phone in phone_cache` / `phone_cache[phone]`. -/
def cacheGet {β : Type} : List (String × β) → String → Option β
  | [], _ => none
  | (k, v) :: rest, p => if k = p then some v else cacheGet rest p

/-- Dictionary write `phone_cache[phone] = result`. -/
def cachePut {β : Type} (c : List (String × β)) (p : String) (v : β) :
    List (String × β) :=
  (p, v) :: c

/-- What one `session.post` attempt observably yields: an HTTP response
(status code, parsed JSON payload, response text), a
`requests.exceptions.Timeout`, a `requests.exceptions.RequestException`,
or any other (unexpected) exception. -/
inductive ApiEvent (α : Type) where
  | response (code : Nat) (payload : α) (text : String)
  | timeout
  | requestFailure (msg : String)
  | unexpected (msg : String)

/-- An event the retry loop retries on: any non-200 HTTP status (429, 5xx or
other), a timeout, or a transport error — everything except an unexpected
exception. -/
def retryable {α : Type} : ApiEvent α → Bool
  | .response code _ _ => code != 200
  | .timeout => true
  | .requestFailure _ => true
  | .unexpected _ => false

/-- The attempt loop of `check_courier_api_with_retry` (`app.py` lines
113-182), over the list of remaining attempt indices (`range(max_attempts+1)`).
Each iteration: if `attempt > 0` increment `retries`; perform the network
call (`calls` instrumentation, then consult `events attempt`); on HTTP 200
cache the result, increment `success` and return; on 429 / other non-200 /
timeout / transport error record `last_error` and continue; on an unexpected
exception `break`. Falling out of the loop (or breaking) increments `failed`
and returns `(None, last_error)`. -/
def attemptLoop {α : Type} (events : Nat → ApiEvent α) (phone : String) :
    List Nat → Option String → RunState α → Outcome α × RunState α
  | [], lastError, s =>
      ((none, lastError),
        { s with stats := { s.stats with failed := s.stats.failed + 1 } })
  | attempt :: rest, _lastError, s =>
      let s1 := if attempt > 0 then
          { s with stats := { s.stats with retries := s.stats.retries + 1 } }
        else s
      let s2 := { s1 with calls := s1.calls + 1 }
      match events attempt with
      | .response code payload text =>
          if code = 200 then
            let result : Outcome α := (some payload, none)
            ((some payload, none),
              { s2 with
                  phone_cache := cachePut s2.phone_cache phone result,
                  stats := { s2.stats with success := s2.stats.success + 1 } })
          else if code = 429 then
            attemptLoop events phone rest (some "Rate limit exceeded") s2
          else
            attemptLoop events phone rest
              (some ("API Error " ++ toString code ++ ": " ++ text.take 100)) s2
      | .timeout => attemptLoop events phone rest (some "Request timeout") s2
      | .requestFailure m =>
          attemptLoop events phone rest (some ("Request failed: " ++ m)) s2
      | .unexpected m =>
          ((none, some ("Unexpected error: " ++ m)),
            { s2 with stats := { s2.stats with failed := s2.stats.failed + 1 } })

/-- `check_courier_api_with_retry` (`app.py` lines 102-182): cache check,
then the attempt loop `for attempt in range(max_attempts + 1)`. -/
def check_courier_api_with_retry {α : Type} (events : Nat → ApiEvent α)
    (phone : String) (max_attempts : Nat) (s : RunState α) :
    Outcome α × RunState α :=
  match cacheGet s.phone_cache phone with
  | some r => (r, s)
  | none => attemptLoop events phone (List.range (max_attempts + 1)) none s

/-- The result-collection loop of `process_phone_batch_robust` (`app.py`
lines 209-220). The worker pool is abstracted: each submitted phone has one
future; `resolve` gives what `future.result()` yields for it — `.ok` the
`(data, error)` pair, `.error` the message of a raised exception — and the
`as_completed` iteration order is an explicit list (each future exactly
once, hence a permutation of the batch). A raised exception is caught and
appended as `(phone, None, "Processing error: " ++ msg)`. -/
def collectResults {α : Type} (resolve : String → Except String (Outcome α)) :
    List String → List (String × Outcome α)
  | [] => []
  | p :: ps =>
      (match resolve p with
        | .ok r => (p, r)
        | .error m => (p, (none, some ("Processing error: " ++ m)))) ::
      collectResults resolve ps

/-- `process_phone_batch_robust` (`app.py` lines 184-225), with the
completion order of the futures passed explicitly. -/
def process_phone_batch_robust {α : Type}
    (resolve : String → Except String (Outcome α))
    (completion_order : List String) : List (String × Outcome α) :=
  collectResults resolve completion_order

/-- The batch partition of `upload_file` (`app.py` lines 1086-1087):
`unique_numbers[i:i+BATCH_SIZE]` for `i in range(0, len, BATCH_SIZE)`,
written with an explicit fuel (the list length suffices once `0 < B`). -/
def batchesGo {σ : Type} (B : Nat) : Nat → List σ → List (List σ)
  | _, [] => []
  | 0, _ :: _ => []
  | fuel + 1, x :: xs => ((x :: xs).take B) :: batchesGo B fuel ((x :: xs).drop B)

/-- The list of contiguous batches of size `B` (last one possibly smaller). -/
def batches {σ : Type} (B : Nat) (l : List σ) : List (List σ) :=
  batchesGo B l.length l

/-- The sequential batch loop of `upload_file` (`app.py` lines 1083-1101):
`all_results = []`, then for each batch in order,
`all_results.extend(process_phone_batch_robust(batch, ...))`. -/
def processAll {σ β : Type} (f : List σ → List β) (B : Nat) (l : List σ) :
    List β :=
  (batches B l).foldl (fun acc b => acc ++ f b) []

/-- `total_batches = (len(unique_numbers) + BATCH_SIZE - 1) // BATCH_SIZE`
(`app.py` line 1084). -/
def total_batches (B : Nat) (l : List String) : Nat :=
  (l.length + B - 1) / B

/-- Modelled from the spec: the round-trip property in §8 refers to a
`strip-country-code` operation that is not a named function in the source;
following the spec's words, it removes the two leading country-code digits
from an accepted 13-digit international form and leaves the digit content of
any other input unchanged. -/
def strip_country_code (x : String) : String :=
  if (digitsOf x).length = 13 ∧ (digitsOf x).take 3 = ['8', '8', '0'] then
    String.mk ((digitsOf x).drop 2)
  else
    String.mk (digitsOf x)

lemma digitsOf_mk_filter (x : String) :
    digitsOf (String.mk (digitsOf x)) = digitsOf x := by
  show ((x.data.filter _).filter _) = x.data.filter _
  simp

lemma digitsOf_mk_drop (x : String) (n : Nat) :
    digitsOf (String.mk ((digitsOf x).drop n)) = (digitsOf x).drop n := by
  apply List.filter_eq_self.mpr
  intro c hc
  exact (List.mem_filter.mp (List.drop_subset n _ hc)).2

/-- C7: `validate_phone_number` accepts an all-digit string of length 11
starting `01` unchanged; accepts an all-digit string of length 13 starting
`880` as its trailing 11 digits; and rejects every other input (judged on
its digit content). Determinism is definitional: the embedding is a pure
function of its input. -/
theorem normalizer_cases (s : String) :
    (s.data.all Char.isDigit = true → s.data.length = 11 →
        s.data.take 2 = ['0', '1'] → validate_phone_number s = some s) ∧
    (s.data.all Char.isDigit = true → s.data.length = 13 →
        s.data.take 3 = ['8', '8', '0'] →
        validate_phone_number s = some (String.mk (s.data.drop 2))) ∧
    (¬((digitsOf s).length = 11 ∧ (digitsOf s).take 2 = ['0', '1']) →
      ¬((digitsOf s).length = 13 ∧ (digitsOf s).take 3 = ['8', '8', '0']) →
      validate_phone_number s = none) := by
  refine ⟨fun hall h11 h01 => ?_, fun hall h13 h880 => ?_, fun h1 h2 => ?_⟩
  · have hd : digitsOf s = s.data :=
      List.filter_eq_self.mpr (List.all_eq_true.mp hall)
    show (if _ ∧ _ then _ else _) = _
    rw [hd, if_pos ⟨h11, h01⟩]
  · have hd : digitsOf s = s.data :=
      List.filter_eq_self.mpr (List.all_eq_true.mp hall)
    show (if _ ∧ _ then _ else if _ ∧ _ then _ else _) = _
    rw [hd, if_neg (by rw [h13]; simp), if_pos ⟨h13, h880⟩]
  · show (if _ ∧ _ then _ else if _ ∧ _ then _ else _) = _
    rw [if_neg h1, if_neg h2]

/-- C7 witness: the three cases of `normalizer_cases` evaluated at the
spec's concrete scenario inputs. -/
theorem normalizer_cases_witness :
    validate_phone_number "01712345678" = some "01712345678" ∧
    validate_phone_number "8801712345678" = some "01712345678" ∧
    validate_phone_number "12345" = none := by
  refine ⟨(normalizer_cases "01712345678").1 (by decide) (by decide) (by decide),
    ?_, (normalizer_cases "12345").2.2 (by decide) (by decide)⟩
  have h := (normalizer_cases "8801712345678").2.1 (by decide) (by decide) (by decide)
  rw [h]
  decide

/-- C5 counterexample: `validate_phone_number` accepts `"8809999999999"` (13
digits starting `880` but not `8801`) and returns `"09999999999"`, whose
first two digits are not the trunk prefix `01`. -/
theorem canonical_form_cex :
    validate_phone_number "8809999999999" = some "09999999999" ∧
    "09999999999".data.take 2 ≠ ['0', '1'] := by decide

/-- C5 (amended): every non-`None` result of `validate_phone_number` is a
string of exactly 11 digit characters whose first digit is `0`; the full
two-digit prefix `01` is not guaranteed for results produced from 13-digit
inputs starting `880`. -/
theorem canonical_form_amended (phone r : String)
    (h : validate_phone_number phone = some r) :
    r.data.length = 11 ∧ (∀ c ∈ r.data, c.isDigit = true) ∧
      r.data.take 1 = ['0'] := by
  by_cases h1 : (digitsOf phone).length = 11 ∧ (digitsOf phone).take 2 = ['0', '1']
  · have hr : r = String.mk (digitsOf phone) := by
      have : validate_phone_number phone = some (String.mk (digitsOf phone)) := by
        show (if _ ∧ _ then _ else _) = _
        rw [if_pos h1]
      rw [this] at h
      exact (Option.some_injective _ h).symm
    subst hr
    refine ⟨h1.1, fun c hc => (List.mem_filter.mp hc).2, ?_⟩
    show (digitsOf phone).take 1 = ['0']
    have : (digitsOf phone).take 1 = ((digitsOf phone).take 2).take 1 := by
      rw [List.take_take]
      norm_num
    rw [this, h1.2]
    rfl
  · by_cases h2 : (digitsOf phone).length = 13 ∧
        (digitsOf phone).take 3 = ['8', '8', '0']
    · have hr : r = String.mk ((digitsOf phone).drop 2) := by
        have : validate_phone_number phone =
            some (String.mk ((digitsOf phone).drop 2)) := by
          show (if _ ∧ _ then _ else if _ ∧ _ then _ else _) = _
          rw [if_neg h1, if_pos h2]
        rw [this] at h
        exact (Option.some_injective _ h).symm
      subst hr
      refine ⟨?_, fun c hc => (List.mem_filter.mp (List.drop_subset 2 _ hc)).2, ?_⟩
      · show ((digitsOf phone).drop 2).length = 11
        rw [List.length_drop, h2.1]
      · show ((digitsOf phone).drop 2).take 1 = ['0']
        rw [← List.drop_take 3 2 (digitsOf phone), h2.2]
        rfl
    · exfalso
      have : validate_phone_number phone = none := by
        show (if _ ∧ _ then _ else if _ ∧ _ then _ else _) = _
        rw [if_neg h1, if_neg h2]
      rw [this] at h
      exact Option.noConfusion h

/-- C5 witness: `canonical_form_amended` at the accepted input
`"01712345678"`. -/
theorem canonical_form_amended_witness :
    ("01712345678").data.length = 11 ∧
      (∀ c ∈ ("01712345678").data, c.isDigit = true) ∧
      ("01712345678").data.take 1 = ['0'] :=
  canonical_form_amended "01712345678" "01712345678" (by decide)

/-- C6 counterexample: `"8800000000000"` is accepted by
`validate_phone_number`, but normalizing it with its country code stripped
gives a different result (`None`), refuting the round-trip as stated. -/
theorem round_trip_cex :
    (validate_phone_number "8800000000000").isSome = true ∧
    validate_phone_number (strip_country_code "8800000000000") ≠
      validate_phone_number "8800000000000" := by decide

/-- C6 (amended): the round-trip
`validate_phone_number (strip_country_code x) = validate_phone_number x`
holds for every accepted `x` whose normalized result begins with the trunk
prefix `01` (equivalently: digit form of length 11, or of length 13
beginning `8801`); accepted 13-digit inputs beginning `880` but not `8801`
violate it. -/
theorem round_trip_amended (x r : String)
    (h : validate_phone_number x = some r) (h01 : r.data.take 2 = ['0', '1']) :
    validate_phone_number (strip_country_code x) = validate_phone_number x := by
  by_cases h1 : (digitsOf x).length = 11 ∧ (digitsOf x).take 2 = ['0', '1']
  · have hs : strip_country_code x = String.mk (digitsOf x) := by
      unfold strip_country_code
      rw [if_neg (by rw [h1.1]; simp)]
    rw [hs]
    show (if _ ∧ _ then _ else _) = _
    rw [digitsOf_mk_filter]
    rw [if_pos h1]
    show _ = (if _ ∧ _ then _ else _)
    rw [if_pos h1]
  · by_cases h2 : (digitsOf x).length = 13 ∧ (digitsOf x).take 3 = ['8', '8', '0']
    · have hr : r = String.mk ((digitsOf x).drop 2) := by
        have hv : validate_phone_number x =
            some (String.mk ((digitsOf x).drop 2)) := by
          show (if _ ∧ _ then _ else if _ ∧ _ then _ else _) = _
          rw [if_neg h1, if_pos h2]
        rw [hv] at h
        exact (Option.some_injective _ h).symm
      have htake : ((digitsOf x).drop 2).take 2 = ['0', '1'] := by
        rw [hr] at h01
        exact h01
      have hs : strip_country_code x = String.mk ((digitsOf x).drop 2) := by
        unfold strip_country_code
        rw [if_pos h2]
      rw [hs]
      show (if _ ∧ _ then _ else _) = _
      rw [digitsOf_mk_drop]
      rw [if_pos ⟨by rw [List.length_drop, h2.1], htake⟩]
      show _ = (if _ ∧ _ then _ else if _ ∧ _ then _ else _)
      rw [if_neg h1, if_pos h2]
    · exfalso
      have : validate_phone_number x = none := by
        show (if _ ∧ _ then _ else if _ ∧ _ then _ else _) = _
        rw [if_neg h1, if_neg h2]
      rw [this] at h
      exact Option.noConfusion h

/-- C6 witness: `round_trip_amended` at the accepted input
`"8801712345678"`. -/
theorem round_trip_amended_witness :
    validate_phone_number (strip_country_code "8801712345678") =
      validate_phone_number "8801712345678" :=
  round_trip_amended "8801712345678" "01712345678" (by decide) (by decide)

lemma mem_dedupGo {x : String} :
    ∀ {l seen : List String}, x ∈ dedupGo seen l ↔ x ∈ l ∧ x ∉ seen := by
  intro l
  induction l with
  | nil => intro seen; simp [dedupGo]
  | cons y ys ih =>
    intro seen
    by_cases hy : y ∈ seen
    · rw [dedupGo, if_pos hy, ih]
      constructor
      · rintro ⟨hxs, hxn⟩
        exact ⟨List.mem_cons_of_mem _ hxs, hxn⟩
      · rintro ⟨hor, hxn⟩
        rcases List.mem_cons.mp hor with rfl | hys
        · exact absurd hy hxn
        · exact ⟨hys, hxn⟩
    · rw [dedupGo, if_neg hy]
      constructor
      · intro hmem
        rcases List.mem_cons.mp hmem with rfl | hrest
        · exact ⟨List.mem_cons_self _ _, hy⟩
        · rcases ih.mp hrest with ⟨hys, hns⟩
          exact ⟨List.mem_cons_of_mem _ hys,
            fun hc => hns (List.mem_cons_of_mem _ hc)⟩
      · rintro ⟨hor, hns⟩
        rcases List.mem_cons.mp hor with rfl | hys
        · exact List.mem_cons_self _ _
        · by_cases hxy : x = y
          · exact hxy ▸ List.mem_cons_self _ _
          · refine List.mem_cons_of_mem _ (ih.mpr ⟨hys, fun hc => ?_⟩)
            rcases List.mem_cons.mp hc with h | h
            · exact hxy h
            · exact hns h

lemma nodup_dedupGo : ∀ (l seen : List String), (dedupGo seen l).Nodup := by
  intro l
  induction l with
  | nil => intro seen; simp [dedupGo]
  | cons y ys ih =>
    intro seen
    by_cases hy : y ∈ seen
    · rw [dedupGo, if_pos hy]; exact ih seen
    · rw [dedupGo, if_neg hy]
      refine List.nodup_cons.mpr ⟨fun hc => ?_, ih (y :: seen)⟩
      exact (mem_dedupGo.mp hc).2 (List.mem_cons_self _ _)

lemma sublist_dedupGo : ∀ (l seen : List String), List.Sublist (dedupGo seen l) l := by
  intro l
  induction l with
  | nil => intro seen; exact List.Sublist.refl _
  | cons y ys ih =>
    intro seen
    by_cases hy : y ∈ seen
    · rw [dedupGo, if_pos hy]; exact (ih seen).cons y
    · rw [dedupGo, if_neg hy]; exact (ih (y :: seen)).cons₂ y

lemma dedupGo_append : ∀ (l₁ l₂ seen : List String),
    dedupGo seen (l₁ ++ l₂) = dedupGo seen l₁ ++ dedupGo (seenAcc seen l₁) l₂ := by
  intro l₁
  induction l₁ with
  | nil => intro l₂ seen; rfl
  | cons y ys ih =>
    intro l₂ seen
    rw [List.cons_append, dedupGo, dedupGo, seenAcc]
    by_cases hy : y ∈ seen
    · rw [if_pos hy, if_pos hy, if_pos hy, ih]
    · rw [if_neg hy, if_neg hy, if_neg hy, List.cons_append, ih]

/-- C8: the deduplication step produces a list with no repeated elements
that is a subsequence of the input with the same members; the reported
duplicate count is `len(input) - len(output)`; and it keeps first
occurrences in order: the output on every input prefix is a prefix of the
output on the whole input. -/
theorem dedup_correct (l : List String) :
    (dedup l).Nodup ∧
    List.Sublist (dedup l) l ∧
    (∀ x, x ∈ dedup l ↔ x ∈ l) ∧
    duplicates_removed l = l.length - (dedup l).length ∧
    (∀ n, ∃ t, dedup (l.take n) ++ t = dedup l) := by
  refine ⟨nodup_dedupGo l [], sublist_dedupGo l [], fun x => ?_, rfl, fun n => ?_⟩
  · rw [show dedup l = dedupGo [] l from rfl, mem_dedupGo]
    simp
  · refine ⟨dedupGo (seenAcc [] (l.take n)) (l.drop n), ?_⟩
    conv_rhs => rw [show dedup l = dedupGo [] (l.take n ++ l.drop n) by
      rw [List.take_append_drop]; rfl]
    rw [dedupGo_append]
    rfl

/-- C8 witness: `dedup_correct` evaluated on a concrete list with
duplicates. -/
theorem dedup_correct_witness :
    dedup ["a", "b", "a", "c", "b"] = ["a", "b", "c"] ∧
    duplicates_removed ["a", "b", "a", "c", "b"] = 2 ∧
    (dedup ["a", "b", "a", "c", "b"]).Nodup := by
  refine ⟨by decide, ?_, (dedup_correct ["a", "b", "a", "c", "b"]).1⟩
  rw [(dedup_correct ["a", "b", "a", "c", "b"]).2.2.2.1]
  decide

lemma batchesGo_nil {σ : Type} (B fuel : Nat) :
    batchesGo B fuel ([] : List σ) = [] := by
  cases fuel <;> rfl

lemma flatten_batchesGo {σ : Type} (B : Nat) (hB : 0 < B) :
    ∀ (fuel : Nat) (l : List σ), l.length ≤ fuel →
      (batchesGo B fuel l).flatten = l := by
  intro fuel
  induction fuel with
  | zero =>
    intro l hl
    have : l = [] := List.eq_nil_of_length_eq_zero (Nat.le_zero.mp hl)
    subst this
    rfl
  | succ n ih =>
    intro l hl
    cases l with
    | nil => rfl
    | cons x xs =>
      show (((x :: xs).take B) :: batchesGo B n ((x :: xs).drop B)).flatten = x :: xs
      rw [List.flatten_cons, ih]
      · exact List.take_append_drop B (x :: xs)
      · rw [List.length_drop]
        simp only [List.length_cons] at hl ⊢
        omega

lemma length_batchesGo {σ : Type} (B : Nat) (hB : 0 < B) :
    ∀ (fuel : Nat) (l : List σ), l.length ≤ fuel →
      (batchesGo B fuel l).length = (l.length + B - 1) / B := by
  intro fuel
  induction fuel with
  | zero =>
    intro l hl
    have : l = [] := List.eq_nil_of_length_eq_zero (Nat.le_zero.mp hl)
    subst this
    show (0 : Nat) = (0 + B - 1) / B
    rw [Nat.div_eq_of_lt (by omega)]
  | succ n ih =>
    intro l hl
    cases l with
    | nil =>
      show (0 : Nat) = (0 + B - 1) / B
      rw [Nat.div_eq_of_lt (by omega)]
    | cons x xs =>
      show (((x :: xs).take B) :: batchesGo B n ((x :: xs).drop B)).length =
        ((x :: xs).length + B - 1) / B
      rw [List.length_cons, ih _ (by rw [List.length_drop]; simp only [List.length_cons] at hl ⊢; omega)]
      rw [List.length_drop]
      have hm : 1 ≤ (x :: xs).length := by simp
      rcases le_or_lt (x :: xs).length B with h | h
      · have e1 : (x :: xs).length - B + B - 1 = B - 1 := by omega
        have e2 : (x :: xs).length + B - 1 = ((x :: xs).length - 1) + B := by omega
        rw [e1, e2, Nat.add_div_right _ hB, Nat.div_eq_of_lt (by omega),
          Nat.div_eq_of_lt (by omega)]
      · have e1 : (x :: xs).length - B + B - 1 = ((x :: xs).length - 1 - B) + B := by
          omega
        have e2 : (x :: xs).length + B - 1 = ((x :: xs).length - 1 - B) + B + B := by
          omega
        rw [e1, e2, Nat.add_div_right _ hB, Nat.add_div_right _ hB,
          Nat.add_div_right _ hB]

lemma mem_batchesGo {σ : Type} (B : Nat) (hB : 0 < B) :
    ∀ (fuel : Nat) (l : List σ), ∀ c ∈ batchesGo B fuel l,
      c.length ≤ B ∧ c ≠ [] := by
  intro fuel
  induction fuel with
  | zero =>
    intro l c hc
    cases l <;> simp [batchesGo] at hc
  | succ n ih =>
    intro l c hc
    cases l with
    | nil => simp [batchesGo] at hc
    | cons x xs =>
      rcases List.mem_cons.mp hc with rfl | hmem
      · constructor
        · rw [List.length_take]
          exact Nat.min_le_left _ _
        · apply List.ne_nil_of_length_pos
          rw [List.length_take, List.length_cons]
          exact Nat.lt_min.mpr ⟨hB, Nat.succ_pos _⟩
      · exact ih _ c hmem

lemma dropLast_batchesGo {σ : Type} (B : Nat) (hB : 0 < B) :
    ∀ (fuel : Nat) (l : List σ), l.length ≤ fuel →
      ∀ c ∈ (batchesGo B fuel l).dropLast, c.length = B := by
  intro fuel
  induction fuel with
  | zero =>
    intro l hl c hc
    have : l = [] := List.eq_nil_of_length_eq_zero (Nat.le_zero.mp hl)
    subst this
    simp [batchesGo] at hc
  | succ n ih =>
    intro l hl c hc
    cases l with
    | nil => simp [batchesGo] at hc
    | cons x xs =>
      have hshape : batchesGo B (n + 1) (x :: xs) =
          ((x :: xs).take B) :: batchesGo B n ((x :: xs).drop B) := rfl
      rw [hshape] at hc
      rcases hrest : batchesGo B n ((x :: xs).drop B) with _ | ⟨r, rs⟩
      · rw [hrest] at hc
        simp at hc
      · rw [hrest] at hc
        have hcc : ((x :: xs).take B :: r :: rs).dropLast =
            (x :: xs).take B :: (r :: rs).dropLast := rfl
        rw [hcc] at hc
        rcases List.mem_cons.mp hc with rfl | hmem
        · have hdrop : (x :: xs).drop B ≠ [] := by
            intro hnil
            rw [hnil, batchesGo_nil] at hrest
            exact List.noConfusion hrest
          have hlen : B < (x :: xs).length := by
            have hp : 0 < ((x :: xs).drop B).length := List.length_pos.mpr hdrop
            rw [List.length_drop] at hp
            omega
          rw [List.length_take]
          exact Nat.min_eq_left (Nat.le_of_lt hlen)
        · rw [← hrest] at hmem
          refine ih _ ?_ c hmem
          rw [List.length_drop]
          simp only [List.length_cons] at hl ⊢
          omega

lemma foldl_extend_eq_flatten {σ β : Type} (f : List σ → List β) :
    ∀ (bs : List (List σ)) (acc : List β),
      bs.foldl (fun a b => a ++ f b) acc = acc ++ (bs.map f).flatten := by
  intro bs
  induction bs with
  | nil => intro acc; simp
  | cons b bs ih =>
    intro acc
    show bs.foldl _ (acc ++ f b) = _
    rw [ih, List.map_cons, List.flatten_cons, List.append_assoc]

/-- C9: for batch size `B > 0`, the scheduler partitions the unique
identifiers into exactly `(M + B - 1) / B = ceil(M/B)` contiguous batches
whose concatenation is the input, every batch except possibly the last has
size exactly `B` (and every batch is nonempty of size at most `B`), and the
sequential batch loop concatenates the per-batch results in batch order. -/
theorem batch_scheduler_correct {β : Type} (B : Nat) (hB : 0 < B)
    (l : List String) (f : List String → List β) :
    (batches B l).length = total_batches B l ∧
    (batches B l).flatten = l ∧
    (∀ c ∈ (batches B l).dropLast, c.length = B) ∧
    (∀ c ∈ batches B l, c.length ≤ B ∧ c ≠ []) ∧
    processAll f B l = ((batches B l).map f).flatten := by
  refine ⟨length_batchesGo B hB l.length l (Nat.le_refl _),
    flatten_batchesGo B hB l.length l (Nat.le_refl _),
    dropLast_batchesGo B hB l.length l (Nat.le_refl _),
    fun c hc => mem_batchesGo B hB l.length l c hc, ?_⟩
  show (batches B l).foldl _ [] = _
  rw [foldl_extend_eq_flatten, List.nil_append]

/-- C9 witness: `batch_scheduler_correct` at batch size 2 on a five-element
list (3 batches of sizes 2, 2, 1, concatenated in order). -/
theorem batch_scheduler_correct_witness :
    batches 2 ["a", "b", "c", "d", "e"] = [["a", "b"], ["c", "d"], ["e"]] ∧
    (batches 2 ["a", "b", "c", "d", "e"]).length =
      total_batches 2 ["a", "b", "c", "d", "e"] ∧
    processAll (fun b => b) 2 ["a", "b", "c", "d", "e"] =
      ["a", "b", "c", "d", "e"] := by
  have h := batch_scheduler_correct 2 (by decide) ["a", "b", "c", "d", "e"]
    (fun b => b)
  refine ⟨by decide, h.1, ?_⟩
  rw [h.2.2.2.2]
  decide

lemma map_fst_collectResults {α : Type} (resolve : String → Except String (Outcome α)) :
    ∀ order : List String, (collectResults resolve order).map Prod.fst = order := by
  intro order
  induction order with
  | nil => rfl
  | cons q ps ih =>
    cases hr : resolve q <;> simp [collectResults, hr, ih]

lemma filter_collectResults {α : Type} (resolve : String → Except String (Outcome α))
    (p : String) :
    ∀ order : List String,
      ((collectResults resolve order).filter (fun t => t.1 == p)).length =
        order.count p := by
  intro order
  induction order with
  | nil => rfl
  | cons q ps ih =>
    have hshape : ∀ v : Outcome α,
        ((List.filter (fun t => t.1 == p) ((q, v) :: collectResults resolve ps))).length =
          (q :: ps).count p := by
      intro v
      rw [List.filter_cons]
      by_cases hqp : q = p
      · subst hqp
        simp [List.count_cons, ih]
      · have hb : ((q, v).1 == p) = false := by simp [hqp]
        rw [hb]
        simp [ih, List.count_cons, hqp]
    cases hr : resolve q with
    | ok v =>
      show ((List.filter _ ((match resolve q with
        | .ok r => (q, r)
        | .error m => (q, (none, some ("Processing error: " ++ m)))) ::
          collectResults resolve ps)).length = _)
      rw [hr]
      exact hshape v
    | error m =>
      show ((List.filter _ ((match resolve q with
        | .ok r => (q, r)
        | .error m => (q, (none, some ("Processing error: " ++ m)))) ::
          collectResults resolve ps)).length = _)
      rw [hr]
      exact hshape _

lemma mem_error_collectResults {α : Type}
    (resolve : String → Except String (Outcome α)) (p m : String)
    (hres : resolve p = .error m) :
    ∀ order : List String, p ∈ order →
      (p, ((none : Option α), some ("Processing error: " ++ m))) ∈
        collectResults resolve order := by
  intro order
  induction order with
  | nil => intro h; simp at h
  | cons q ps ih =>
    intro hmem
    rcases List.mem_cons.mp hmem with rfl | hps
    · show _ ∈ (match resolve p with
        | .ok r => (p, r)
        | .error m => (p, (none, some ("Processing error: " ++ m)))) ::
          collectResults resolve ps
      rw [hres]
      exact List.mem_cons_self _ _
    · exact List.mem_cons_of_mem _ (ih hps)

/-- C3: each identifier of a batch appears exactly once in the batch's
result list (given the `as_completed` order, a permutation of the submitted
futures), and an exception while resolving one identifier is converted into
a terminal failure tuple for that identifier only — the rest of the batch is
unaffected. -/
theorem batch_result_isolation {α : Type} (batch completion_order : List String)
    (resolve : String → Except String (Outcome α))
    (hperm : completion_order.Perm batch) (hnd : batch.Nodup) :
    ((process_phone_batch_robust resolve completion_order).map Prod.fst).Perm batch ∧
    (process_phone_batch_robust resolve completion_order).length = batch.length ∧
    (∀ p ∈ batch,
      ((process_phone_batch_robust resolve completion_order).filter
        (fun t => t.1 == p)).length = 1) ∧
    (∀ p ∈ batch, ∀ m, resolve p = .error m →
      (p, ((none : Option α), some ("Processing error: " ++ m))) ∈
        process_phone_batch_robust resolve completion_order) := by
  refine ⟨?_, ?_, fun p hp => ?_, fun p hp m hm => ?_⟩
  · rw [show process_phone_batch_robust resolve completion_order =
      collectResults resolve completion_order from rfl, map_fst_collectResults]
    exact hperm
  · have h1 := congrArg List.length (map_fst_collectResults resolve completion_order)
    rw [List.length_map] at h1
    rw [show process_phone_batch_robust resolve completion_order =
      collectResults resolve completion_order from rfl, h1]
    exact hperm.length_eq
  · rw [show process_phone_batch_robust resolve completion_order =
      collectResults resolve completion_order from rfl,
      filter_collectResults, hperm.count_eq]
    exact List.count_eq_one_of_mem hnd hp
  · exact mem_error_collectResults resolve p m hm completion_order
      (hperm.mem_iff.mpr hp)

/-- C3 witness: `batch_result_isolation` on a two-element batch where
resolving `"a"` raises: the batch still yields one tuple per identifier and
`"a"` gets the converted failure tuple. -/
theorem batch_result_isolation_witness :
    ("a", ((none : Option Nat), some ("Processing error: " ++ "boom"))) ∈
      process_phone_batch_robust
        (fun p => if p = "a" then Except.error "boom"
          else Except.ok ((some 1 : Option Nat), none)) ["b", "a"] :=
  (batch_result_isolation ["a", "b"] ["b", "a"]
      (fun p => if p = "a" then Except.error "boom"
        else Except.ok ((some 1 : Option Nat), none))
      (by decide) (by decide)).2.2.2 "a" (by decide) "boom" rfl

lemma cacheGet_cachePut {β : Type} (c : List (String × β)) (p : String) (v : β) :
    cacheGet (cachePut c p v) p = some v := by
  simp [cacheGet, cachePut]

lemma stepState_cache {α : Type} (a : Nat) (s : RunState α) :
    (if a > 0 then
        { s with stats := { s.stats with retries := s.stats.retries + 1 } }
      else s).phone_cache = s.phone_cache := by
  split <;> rfl

lemma attemptLoop_cacheFacts {α : Type} (events : Nat → ApiEvent α) (phone : String) :
    ∀ (as : List Nat) (le : Option String) (s : RunState α),
      ((attemptLoop events phone as le s).1.1.isSome = true →
        cacheGet (attemptLoop events phone as le s).2.phone_cache phone =
          some (attemptLoop events phone as le s).1) ∧
      ((attemptLoop events phone as le s).1.1 = none →
        (attemptLoop events phone as le s).2.phone_cache = s.phone_cache) := by
  intro as
  induction as with
  | nil =>
    intro le s
    exact ⟨fun h => by simp [attemptLoop] at h, fun _ => rfl⟩
  | cons a rest ih =>
    intro le s
    cases hev : events a with
    | response code payload text =>
      by_cases h200 : code = 200
      · constructor
        · intro _
          simp only [attemptLoop, hev, h200, if_pos]
          exact cacheGet_cachePut _ _ _
        · intro h
          simp only [attemptLoop, hev, h200, if_pos] at h
          exact Option.noConfusion h
      · by_cases h429 : code = 429
        · constructor
          · intro h
            simp only [attemptLoop, hev, if_neg h200, if_pos h429] at h ⊢
            exact (ih _ _).1 h
          · intro h
            simp only [attemptLoop, hev, if_neg h200, if_pos h429] at h ⊢
            exact ((ih _ _).2 h).trans (stepState_cache a s)
        · constructor
          · intro h
            simp only [attemptLoop, hev, if_neg h200, if_neg h429] at h ⊢
            exact (ih _ _).1 h
          · intro h
            simp only [attemptLoop, hev, if_neg h200, if_neg h429] at h ⊢
            exact ((ih _ _).2 h).trans (stepState_cache a s)
    | timeout =>
      constructor
      · intro h
        simp only [attemptLoop, hev] at h ⊢
        exact (ih _ _).1 h
      · intro h
        simp only [attemptLoop, hev] at h ⊢
        exact ((ih _ _).2 h).trans (stepState_cache a s)
    | requestFailure m =>
      constructor
      · intro h
        simp only [attemptLoop, hev] at h ⊢
        exact (ih _ _).1 h
      · intro h
        simp only [attemptLoop, hev] at h ⊢
        exact ((ih _ _).2 h).trans (stepState_cache a s)
    | unexpected m =>
      constructor
      · intro h
        simp only [attemptLoop, hev] at h
        exact Bool.noConfusion h
      · intro _
        simp only [attemptLoop, hev]
        exact stepState_cache a s

/-- C1 counterexample: with an empty cache and every attempt timing out,
the lookup for `"01712345678"` terminates by exhausting all attempts with
outcome `(None, "Request timeout")`, yet afterwards the cache still has no
entry for that identifier — an exhausted failure is not cached. -/
theorem failed_outcome_not_cached :
    (check_courier_api_with_retry (fun _ => (ApiEvent.timeout : ApiEvent Nat))
      "01712345678" MAX_RETRIES ⟨[], ⟨0, 0, 0, 0⟩, 0⟩).1 =
        (none, some "Request timeout") ∧
    cacheGet (check_courier_api_with_retry
      (fun _ => (ApiEvent.timeout : ApiEvent Nat))
      "01712345678" MAX_RETRIES ⟨[], ⟨0, 0, 0, 0⟩, 0⟩).2.phone_cache
      "01712345678" = none := by
  constructor <;> rfl

/-- C1 (amended): a lookup for an identifier with a cached outcome returns
that outcome with the state untouched (no network path, no retry
accounting); a lookup that returns a successful outcome leaves exactly that
outcome in the cache; but a lookup that terminates with a failure outcome
writes nothing — only successful outcomes are cached. -/
theorem cache_write_semantics {α : Type} (events : Nat → ApiEvent α)
    (phone : String) (N : Nat) (s : RunState α) :
    (∀ r, cacheGet s.phone_cache phone = some r →
      check_courier_api_with_retry events phone N s = (r, s)) ∧
    ((check_courier_api_with_retry events phone N s).1.1.isSome = true →
      cacheGet (check_courier_api_with_retry events phone N s).2.phone_cache
        phone = some (check_courier_api_with_retry events phone N s).1) ∧
    (cacheGet s.phone_cache phone = none →
      (check_courier_api_with_retry events phone N s).1.1 = none →
      cacheGet (check_courier_api_with_retry events phone N s).2.phone_cache
        phone = none) := by
  refine ⟨fun r h => ?_, ?_, fun hc h => ?_⟩
  · unfold check_courier_api_with_retry
    rw [h]
  · cases hc : cacheGet s.phone_cache phone with
    | some r =>
      intro _
      have he : check_courier_api_with_retry events phone N s = (r, s) := by
        unfold check_courier_api_with_retry
        rw [hc]
      rw [he]
      exact hc
    | none =>
      have he : check_courier_api_with_retry events phone N s =
          attemptLoop events phone (List.range (N + 1)) none s := by
        unfold check_courier_api_with_retry
        rw [hc]
      rw [he]
      exact (attemptLoop_cacheFacts events phone (List.range (N + 1)) none s).1
  · have he : check_courier_api_with_retry events phone N s =
        attemptLoop events phone (List.range (N + 1)) none s := by
      unfold check_courier_api_with_retry
      rw [hc]
    rw [he] at h ⊢
    rw [(attemptLoop_cacheFacts events phone (List.range (N + 1)) none s).2 h]
    exact hc

/-- C1 witness: `cache_write_semantics` at a state whose cache already holds
an outcome for the identifier — the lookup returns it with the state
unchanged. -/
theorem cache_write_semantics_witness :
    check_courier_api_with_retry (fun _ => (ApiEvent.timeout : ApiEvent Nat))
      "01712345678" MAX_RETRIES
      ⟨[("01712345678", (some 7, none))], ⟨1, 1, 0, 0⟩, 1⟩ =
      ((some 7, none),
        ⟨[("01712345678", (some 7, none))], ⟨1, 1, 0, 0⟩, 1⟩) :=
  (cache_write_semantics (fun _ => (ApiEvent.timeout : ApiEvent Nat))
    "01712345678" MAX_RETRIES
    ⟨[("01712345678", (some 7, none))], ⟨1, 1, 0, 0⟩, 1⟩).1 (some 7, none) rfl

/-- C10: a cache hit is observationally a pure read: the lookup returns the
cached outcome and leaves every statistics counter (total, success, failed,
retries), the call count and the whole state unchanged. -/
theorem cache_hit_frame {α : Type} (events : Nat → ApiEvent α) (phone : String)
    (N : Nat) (s : RunState α) (r : Outcome α)
    (h : cacheGet s.phone_cache phone = some r) :
    (check_courier_api_with_retry events phone N s).1 = r ∧
    (check_courier_api_with_retry events phone N s).2.stats.total =
      s.stats.total ∧
    (check_courier_api_with_retry events phone N s).2.stats.success =
      s.stats.success ∧
    (check_courier_api_with_retry events phone N s).2.stats.failed =
      s.stats.failed ∧
    (check_courier_api_with_retry events phone N s).2.stats.retries =
      s.stats.retries ∧
    (check_courier_api_with_retry events phone N s).2.calls = s.calls ∧
    (check_courier_api_with_retry events phone N s).2 = s := by
  have he : check_courier_api_with_retry events phone N s = (r, s) := by
    unfold check_courier_api_with_retry
    rw [h]
  rw [he]
  exact ⟨rfl, rfl, rfl, rfl, rfl, rfl, rfl⟩

/-- C10 witness: `cache_hit_frame` at a concrete cached state. -/
theorem cache_hit_frame_witness :
    (check_courier_api_with_retry (fun _ => (ApiEvent.timeout : ApiEvent Nat))
      "01898765432" MAX_RETRIES
      ⟨[("01898765432", (none, some "Request timeout"))], ⟨2, 1, 1, 3⟩, 9⟩).2 =
      ⟨[("01898765432", (none, some "Request timeout"))], ⟨2, 1, 1, 3⟩, 9⟩ :=
  (cache_hit_frame (fun _ => (ApiEvent.timeout : ApiEvent Nat)) "01898765432"
    MAX_RETRIES ⟨[("01898765432", (none, some "Request timeout"))], ⟨2, 1, 1, 3⟩, 9⟩
    (none, some "Request timeout") rfl).2.2.2.2.2.2

lemma attemptLoop_cons_retryable {α : Type} (events : Nat → ApiEvent α)
    (phone : String) (a : Nat) (rest : List Nat) (le : Option String)
    (s : RunState α) (h : retryable (events a) = true) :
    ∃ le2, attemptLoop events phone (a :: rest) le s =
      attemptLoop events phone rest le2
        { s with
            stats := { s.stats with
              retries := s.stats.retries + (if 0 < a then 1 else 0) },
            calls := s.calls + 1 } := by
  cases hev : events a with
  | response code payload text =>
    have hcode : ¬(code = 200) := by
      rw [hev] at h
      exact bne_iff_ne.mp h
    by_cases h429 : code = 429
    · refine ⟨some "Rate limit exceeded", ?_⟩
      by_cases h0 : a > 0 <;>
        simp [attemptLoop, hev, hcode, h429, h0]
    · refine ⟨some ("API Error " ++ toString code ++ ": " ++ text.take 100), ?_⟩
      by_cases h0 : a > 0 <;>
        simp [attemptLoop, hev, hcode, h429, h0]
  | timeout =>
    refine ⟨some "Request timeout", ?_⟩
    by_cases h0 : a > 0 <;> simp [attemptLoop, hev, h0]
  | requestFailure m =>
    refine ⟨some ("Request failed: " ++ m), ?_⟩
    by_cases h0 : a > 0 <;> simp [attemptLoop, hev, h0]
  | unexpected m =>
    rw [hev] at h
    exact Bool.noConfusion h

lemma attemptLoop_cons_unexpected {α : Type} (events : Nat → ApiEvent α)
    (phone : String) (a : Nat) (rest : List Nat) (le : Option String)
    (s : RunState α) (m : String) (hev : events a = .unexpected m) :
    attemptLoop events phone (a :: rest) le s =
      ((none, some ("Unexpected error: " ++ m)),
        { s with
            stats := { s.stats with
              retries := s.stats.retries + (if 0 < a then 1 else 0),
              failed := s.stats.failed + 1 },
            calls := s.calls + 1 }) := by
  by_cases h0 : a > 0 <;> simp [attemptLoop, hev, h0]

lemma attemptLoop_retryable {α : Type} (events : Nat → ApiEvent α)
    (phone : String) :
    ∀ (as : List Nat) (le : Option String) (s : RunState α),
      (∀ a ∈ as, retryable (events a) = true) →
      (attemptLoop events phone as le s).1.1 = none ∧
      (attemptLoop events phone as le s).2.phone_cache = s.phone_cache ∧
      (attemptLoop events phone as le s).2.calls = s.calls + as.length ∧
      (attemptLoop events phone as le s).2.stats.retries =
        s.stats.retries + as.countP (fun a => decide (0 < a)) ∧
      (attemptLoop events phone as le s).2.stats.failed = s.stats.failed + 1 ∧
      (attemptLoop events phone as le s).2.stats.success = s.stats.success ∧
      (attemptLoop events phone as le s).2.stats.total = s.stats.total := by
  intro as
  induction as with
  | nil =>
    intro le s _
    exact ⟨rfl, rfl, rfl, rfl, rfl, rfl, rfl⟩
  | cons a rest ih =>
    intro le s hall
    obtain ⟨le2, hstep⟩ := attemptLoop_cons_retryable events phone a rest le s
      (hall a (List.mem_cons_self _ _))
    rw [hstep]
    obtain ⟨e1, e2, e3, e4, e5, e6, e7⟩ :=
      ih le2 _ (fun b hb => hall b (List.mem_cons_of_mem _ hb))
    refine ⟨e1, e2, ?_, ?_, e5, e6, e7⟩
    · rw [e3]
      show s.calls + 1 + rest.length = s.calls + (rest.length + 1)
      omega
    · rw [e4, List.countP_cons]
      by_cases h0 : 0 < a <;> simp [h0] <;> omega

lemma countP_pos_range : ∀ n : Nat,
    (List.range (n + 1)).countP (fun a => decide (0 < a)) = n := by
  intro n
  induction n with
  | zero => rfl
  | succ k ih =>
    rw [List.range_succ, List.countP_append, ih]
    simp

/-- C2: with nothing cached for the identifier and every attempt up to the
ceiling `N` yielding a retryable failure (any non-200 status including 429
and 5xx, a timeout, or a transport error, in any mix), the lookup makes
exactly `N + 1` network calls (so at most `N + 1` attempts), increments the
shared retry counter exactly `N` times — once per non-first attempt,
whichever branch triggered it — increments `failed` once, and returns a
failure outcome. -/
theorem retry_accounting {α : Type} (events : Nat → ApiEvent α)
    (phone : String) (N : Nat) (s : RunState α)
    (hc : cacheGet s.phone_cache phone = none)
    (hr : ∀ k, k ≤ N → retryable (events k) = true) :
    (check_courier_api_with_retry events phone N s).1.1 = none ∧
    (check_courier_api_with_retry events phone N s).2.calls =
      s.calls + (N + 1) ∧
    (check_courier_api_with_retry events phone N s).2.stats.retries =
      s.stats.retries + N ∧
    (check_courier_api_with_retry events phone N s).2.stats.failed =
      s.stats.failed + 1 ∧
    (check_courier_api_with_retry events phone N s).2.stats.success =
      s.stats.success := by
  have he : check_courier_api_with_retry events phone N s =
      attemptLoop events phone (List.range (N + 1)) none s := by
    unfold check_courier_api_with_retry
    rw [hc]
  obtain ⟨e1, _, e3, e4, e5, e6, _⟩ := attemptLoop_retryable events phone
    (List.range (N + 1)) none s
    (fun a ha => hr a (Nat.lt_succ_iff.mp (List.mem_range.mp ha)))
  rw [he]
  refine ⟨e1, ?_, ?_, e5, e6⟩
  · rw [e3, List.length_range]
  · rw [e4, countP_pos_range]

/-- C2 witness: `retry_accounting` with every attempt timing out at the
configured ceiling `MAX_RETRIES = 3`: 4 calls, 3 retry increments, 1 failed
increment. -/
theorem retry_accounting_witness :
    (check_courier_api_with_retry (fun _ => (ApiEvent.timeout : ApiEvent Nat))
      "01712345678" MAX_RETRIES ⟨[], ⟨0, 0, 0, 0⟩, 0⟩).2.calls = 4 ∧
    (check_courier_api_with_retry (fun _ => (ApiEvent.timeout : ApiEvent Nat))
      "01712345678" MAX_RETRIES ⟨[], ⟨0, 0, 0, 0⟩, 0⟩).2.stats.retries = 3 ∧
    (check_courier_api_with_retry (fun _ => (ApiEvent.timeout : ApiEvent Nat))
      "01712345678" MAX_RETRIES ⟨[], ⟨0, 0, 0, 0⟩, 0⟩).2.stats.failed = 1 := by
  have h := retry_accounting (fun _ => (ApiEvent.timeout : ApiEvent Nat))
    "01712345678" MAX_RETRIES ⟨[], ⟨0, 0, 0, 0⟩, 0⟩ rfl (fun _ _ => rfl)
  exact ⟨h.2.1, h.2.2.1, h.2.2.2.1⟩

lemma attemptLoop_unexpected_at {α : Type} (events : Nat → ApiEvent α)
    (phone m : String) :
    ∀ (as1 : List Nat) (k : Nat) (as2 : List Nat) (le : Option String)
      (s : RunState α),
      (∀ b ∈ as1, retryable (events b) = true) →
      events k = .unexpected m →
      (attemptLoop events phone (as1 ++ k :: as2) le s).1 =
        (none, some ("Unexpected error: " ++ m)) ∧
      (attemptLoop events phone (as1 ++ k :: as2) le s).2.phone_cache =
        s.phone_cache ∧
      (attemptLoop events phone (as1 ++ k :: as2) le s).2.calls =
        s.calls + as1.length + 1 ∧
      (attemptLoop events phone (as1 ++ k :: as2) le s).2.stats.retries =
        s.stats.retries + as1.countP (fun b => decide (0 < b)) +
          (if 0 < k then 1 else 0) ∧
      (attemptLoop events phone (as1 ++ k :: as2) le s).2.stats.failed =
        s.stats.failed + 1 ∧
      (attemptLoop events phone (as1 ++ k :: as2) le s).2.stats.success =
        s.stats.success := by
  intro as1
  induction as1 with
  | nil =>
    intro k as2 le s _ hev
    rw [List.nil_append, attemptLoop_cons_unexpected events phone k as2 le s m hev]
    refine ⟨rfl, rfl, rfl, ?_, rfl, rfl⟩
    rfl
  | cons a as1 ih =>
    intro k as2 le s hall hev
    rw [List.cons_append]
    obtain ⟨le2, hstep⟩ := attemptLoop_cons_retryable events phone a
      (as1 ++ k :: as2) le s (hall a (List.mem_cons_self _ _))
    rw [hstep]
    obtain ⟨e1, e2, e3, e4, e5, e6⟩ :=
      ih k as2 le2 _ (fun b hb => hall b (List.mem_cons_of_mem _ hb)) hev
    refine ⟨e1, e2, ?_, ?_, e5, e6⟩
    · rw [e3]
      show s.calls + 1 + as1.length + 1 = s.calls + (as1.length + 1) + 1
      omega
    · rw [e4, List.countP_cons]
      by_cases h0 : 0 < a <;> by_cases hk : 0 < k <;> simp [h0, hk] <;> omega

/-- C4: if every attempt before index `k ≤ N` fails retryably and attempt
`k` raises an unexpected (non-network) error, the lookup stops immediately:
exactly `k + 1` network calls are made (none after the unexpected error),
the outcome is a terminal failure recording the unexpected error, the
`failed` counter is incremented exactly once, the retry counter exactly `k`
times, and nothing is cached. -/
theorem unexpected_error_fail_fast {α : Type} (events : Nat → ApiEvent α)
    (phone m : String) (N k : Nat) (s : RunState α)
    (hc : cacheGet s.phone_cache phone = none)
    (hk : k ≤ N)
    (hbefore : ∀ j, j < k → retryable (events j) = true)
    (hev : events k = .unexpected m) :
    (check_courier_api_with_retry events phone N s).1 =
      (none, some ("Unexpected error: " ++ m)) ∧
    (check_courier_api_with_retry events phone N s).2.calls =
      s.calls + (k + 1) ∧
    (check_courier_api_with_retry events phone N s).2.stats.failed =
      s.stats.failed + 1 ∧
    (check_courier_api_with_retry events phone N s).2.stats.retries =
      s.stats.retries + k ∧
    (check_courier_api_with_retry events phone N s).2.phone_cache =
      s.phone_cache := by
  have he : check_courier_api_with_retry events phone N s =
      attemptLoop events phone (List.range (N + 1)) none s := by
    unfold check_courier_api_with_retry
    rw [hc]
  have hsplit : List.range (N + 1) =
      List.range k ++ k :: (List.range (N - k)).map ((k + 1) + ·) := by
    have e : N + 1 = (k + 1) + (N - k) := by omega
    rw [e, List.range_add, List.range_succ, List.append_assoc]
    rfl
  obtain ⟨e1, e2, e3, e4, e5, _⟩ := attemptLoop_unexpected_at events phone m
    (List.range k) k ((List.range (N - k)).map ((k + 1) + ·)) none s
    (fun b hb => hbefore b (List.mem_range.mp hb)) hev
  rw [he, hsplit]
  refine ⟨e1, ?_, e5, ?_, e2⟩
  · rw [e3, List.length_range]
    omega
  · rw [e4]
    cases k with
    | zero => rfl
    | succ j =>
      rw [countP_pos_range j]
      simp
      omega

/-- C4 witness: `unexpected_error_fail_fast` with a timeout on attempt 0 and
an unexpected error on attempt 1: two calls, one retry increment, one failed
increment, terminal outcome recording the unexpected error. -/
theorem unexpected_error_fail_fast_witness :
    (check_courier_api_with_retry
      (fun j => if j = 0 then (ApiEvent.timeout : ApiEvent Nat)
        else ApiEvent.unexpected "boom")
      "01712345678" MAX_RETRIES ⟨[], ⟨0, 0, 0, 0⟩, 0⟩).1 =
        (none, some "Unexpected error: boom") ∧
    (check_courier_api_with_retry
      (fun j => if j = 0 then (ApiEvent.timeout : ApiEvent Nat)
        else ApiEvent.unexpected "boom")
      "01712345678" MAX_RETRIES ⟨[], ⟨0, 0, 0, 0⟩, 0⟩).2.calls = 2 ∧
    (check_courier_api_with_retry
      (fun j => if j = 0 then (ApiEvent.timeout : ApiEvent Nat)
        else ApiEvent.unexpected "boom")
      "01712345678" MAX_RETRIES ⟨[], ⟨0, 0, 0, 0⟩, 0⟩).2.stats.retries = 1 := by
  have h := unexpected_error_fail_fast
    (fun j => if j = 0 then (ApiEvent.timeout : ApiEvent Nat)
      else ApiEvent.unexpected "boom")
    "01712345678" "boom" MAX_RETRIES 1 ⟨[], ⟨0, 0, 0, 0⟩, 0⟩ rfl (by decide)
    (fun j hj => by
      have hj0 : j = 0 := by omega
      rw [hj0]
      rfl)
    rfl
  exact ⟨h.1, h.2.1, h.2.2.2.1⟩

end BulkCourier
